import Mathlib

/-!
Verification of the heap-allocator script tooling (`pysrc/parsing.py` and
`pysrc/trace_parsing.py`): the live-trace translator, the pattern generator,
and the script validator, shallowly embedded over decoded call records.

Python dicts preserve insertion order; we model them as association lists
with unique keys: insertion of a fresh key appends, update keeps position,
and `pop` removes the entry.
-/

namespace HeapWorkshop

/-- One emitted script line: `a <id> <size>`, `r <id> <size>` or `f <id>`.
The size is `none` when the decoder failed to extract a byte count
(Python would interpolate the literal text `None`). -/
inductive Line where
  | a (id : Nat) (size : Option Int)
  | r (id : Nat) (size : Option Int)
  | f (id : Nat)
deriving DecidableEq, Repr

/-- The `Heap_Call` enumeration from the source. -/
inductive HeapCall where
  | alloc
  | realloc
  | free
deriving DecidableEq, Repr

/-- A decoded trace line as consumed by the translator core: the call kind,
the (nonzero) runtime address, and the extracted byte count when present.
Lines whose address fails to decode (or decodes to 0, falsy in Python)
never reach the translator branches and are not represented. -/
structure DecodedCall where
  call : HeapCall
  address : Nat
  size : Option Int
deriving DecidableEq, Repr

/-! ### Insertion-ordered dictionary model -/

/-- Membership test / lookup of a Python dict, first (unique) key wins. -/
def alookup {κ α : Type} [DecidableEq κ] : List (κ × α) → κ → Option α
  | [], _ => none
  | (k, v) :: rest, key => if k = key then some v else alookup rest key

/-- Model of `dict.pop(key)`: remove the entry for `key`. -/
def aerase {κ α : Type} [DecidableEq κ] : List (κ × α) → κ → List (κ × α)
  | [], _ => []
  | (k, v) :: rest, key => if k = key then rest else (k, v) :: aerase rest key

/-- Model of `dict[key] = val` for a key already present: value replaced in place. -/
def aupdate {κ α : Type} [DecidableEq κ] : List (κ × α) → κ → α → List (κ × α)
  | [], _, _ => []
  | (k, v) :: rest, key, val =>
    if k = key then (k, val) :: rest else (k, v) :: aupdate rest key val

/-- Model of `dict[key] = val`: update in place when present, append when fresh. -/
def ainsert {κ α : Type} [DecidableEq κ] (m : List (κ × α)) (key : κ) (val : α) :
    List (κ × α) :=
  match alookup m key with
  | some _ => aupdate m key val
  | none => m ++ [(key, val)]

/-- The translator's `memory_dict`: runtime address to the insertion-ordered
list of live memory ids sharing that address. -/
abbrev AddrMap := List (Nat × List Nat)

/-! ### `parsing.py` translator (`print_heap_call`, lines 207-265)

The textual decoding (`get_heap_address` / `get_heap_call` /
`get_heap_bytes`) is the excluded decoder collaborator; the translator core
below consumes its output, a `DecodedCall`.  `random.choice` over a list of
live ids is modelled by an externally supplied draw `rv`, used as an index
modulo the list length. -/

/-- The state transition and output of one `print_heap_call` step on a
decoded call.  Returns (memory_dict, memory_ids, printed lines). -/
def print_heap_call (c : DecodedCall) (rv : Nat) (m : AddrMap) (ids : Nat) :
    AddrMap × Nat × List Line :=
  match c.call with
  | .free =>
    match alookup m c.address with
    | some idList =>
      let to_del := idList.getD (idList.length - 1) 0
      let popped := idList.dropLast
      if popped = [] then (aerase m c.address, ids, [Line.f to_del])
      else (aupdate m c.address popped, ids, [Line.f to_del])
    | none => (m, ids, [])
  | .realloc =>
    match alookup m c.address with
    | none =>
      -- synthesize `a <id> 8`, register the id, then realloc it
      -- (the random choice is over the singleton list just registered)
      let lst := [ids]
      let to_realloc := lst.getD (rv % lst.length) 0
      (m ++ [(c.address, [ids])], ids + 1,
        [Line.a ids (some 8), Line.r to_realloc c.size])
    | some lst =>
      let to_realloc := lst.getD (rv % lst.length) 0
      (m, ids, [Line.r to_realloc c.size])
  | .alloc =>
    let cur := (alookup m c.address).getD []
    (ainsert m c.address (cur ++ [ids]), ids + 1, [Line.a ids c.size])

/-- Fold `print_heap_call` over a stream of decoded calls; `pick i` is the
random draw consumed by the `i`-th call. -/
def translateSteps (pick : Nat → Nat) :
    List DecodedCall → AddrMap → Nat → Nat → AddrMap × Nat × List Line
  | [], m, ids, _ => (m, ids, [])
  | c :: cs, m, ids, i =>
    let s1 := print_heap_call c (pick i) m ids
    let s2 := translateSteps pick cs s1.1 s1.2.1 (i + 1)
    (s2.1, s2.2.1, s1.2.2 ++ s2.2.2)

/-- End-of-input flush of `parse_file_heap_use` (lines 278-283): one free
line per still-live id, addresses in insertion order, then each address's
ids in list order. -/
def flushFrees (m : AddrMap) : List Line :=
  ((m.map Prod.snd).flatten).map Line.f

/-- Function `parse_file_heap_use` of `parsing.py` (lines 268-283) over an
already-decoded stream: run every line through `print_heap_call`, then
flush the remaining live ids as trailing frees. -/
def parse_file_heap_use (pick : Nat → Nat) (cs : List DecodedCall) : List Line :=
  let s := translateSteps pick cs [] 0 0
  s.2.2 ++ flushFrees s.1

/-! ### `trace_parsing.py` translator (`parse_file_heap_use`, lines 172-228)

The earlier draft of the same translator.  Its free branch prints the last
id of the address's list but then pops the *entire* address entry
(line 197: `memory_dict.pop(heap_address)`), discarding any other live ids
aliased to that address. -/

/-- One step of the `trace_parsing.py` translator loop body. -/
def tpStep (c : DecodedCall) (rv : Nat) (m : AddrMap) (ids : Nat) :
    AddrMap × Nat × List Line :=
  match alookup m c.address with
  | some idList =>
    match c.call with
    | .free =>
      (aerase m c.address, ids, [Line.f (idList.getD (idList.length - 1) 0)])
    | .realloc =>
      (m, ids, [Line.r (idList.getD (rv % idList.length) 0) c.size])
    | .alloc =>
      (aupdate m c.address (idList ++ [ids]), ids + 1, [Line.a ids c.size])
  | none =>
    match c.call with
    | .free => (m, ids, [])
    | .realloc =>
      (m ++ [(c.address, [ids])], ids + 1,
        [Line.a ids (some 8), Line.r ids c.size])
    | .alloc =>
      (m ++ [(c.address, [ids])], ids + 1, [Line.a ids c.size])

/-- Fold of `tpStep` over the decoded stream. -/
def tpSteps (pick : Nat → Nat) :
    List DecodedCall → AddrMap → Nat → Nat → AddrMap × Nat × List Line
  | [], m, ids, _ => (m, ids, [])
  | c :: cs, m, ids, i =>
    let s1 := tpStep c (pick i) m ids
    let s2 := tpSteps pick cs s1.1 s1.2.1 (i + 1)
    (s2.1, s2.2.1, s1.2.2 ++ s2.2.2)

/-- The `trace_parsing.py` version of `parse_file_heap_use` (translator loop plus the
identical trailing flush, lines 223-228). -/
def tpParseFileHeapUse (pick : Nat → Nat) (cs : List DecodedCall) : List Line :=
  let s := tpSteps pick cs [] 0 0
  s.2.2 ++ flushFrees s.1

/-! ### Script validator (`parsing.py` `validate_script`, lines 499-522)

A script line is consumed as its first two whitespace-separated tokens
(`request_type`, `memory_id`), both strings, exactly as the source reads
`line_lst[0]` and `line_lst[1]`.  Raised `ValueError`s are modelled as
`Except.error` carrying the 1-based line number and the error kind. -/

/-- The three inconsistencies `validate_script` raises. -/
inductive VErr where
  | reallocNotLive
  | freeNotLive
  | doubleAlloc
deriving DecidableEq, Repr

/-- The `memory_request_dict`: memory-id token to last recorded request type. -/
abbrev ReqMap := List (String × String)

/-- The body of `validate_script`'s loop for one line. -/
def validateStep (d : ReqMap) (rt mid : String) : Except VErr ReqMap :=
  match alookup d mid with
  | none =>
    if rt = "r" then Except.error VErr.reallocNotLive
    else if rt = "f" then Except.error VErr.freeNotLive
    else Except.ok (d ++ [(mid, rt)])
  | some last =>
    if rt = "a" ∧ last = "a" then Except.error VErr.doubleAlloc
    else if rt = "f" then Except.ok (aerase d mid)
    else Except.ok d

/-- The `validate_script` loop from state `d` at 1-based line number `i`. -/
def validateFrom (d : ReqMap) (i : Nat) :
    List (String × String) → Except (Nat × VErr) ReqMap
  | [] => Except.ok d
  | (rt, mid) :: rest =>
    match validateStep d rt mid with
    | Except.error e => Except.error (i, e)
    | Except.ok d2 => validateFrom d2 (i + 1) rest

/-- Function `validate_script` over the scripted lines (first two tokens of each). -/
def validate_script (lines : List (String × String)) : Except (Nat × VErr) ReqMap :=
  validateFrom [] 1 lines

/-! ### Pattern generator (`parsing.py`, lines 286-496)

The directive strings are modelled as `List Char`; `random.randint` draws
are fed from an external stream `rnds : List Nat`, one entry consumed per
draw and mapped into the requested inclusive range.  Functions that can
raise in Python (`int(...)`, out-of-range indexing, division by zero in
`% len(...)`) return `Option`, `none` meaning the exception. -/

/-- The `ALL_IDS` sentinel (line 38). -/
def ALL_IDS : Int := -2

/-- Model of `int(tok)` on a token: digits with an optional leading minus sign. -/
def parseInt (s : List Char) : Option Int :=
  match s with
  | '-' :: rest =>
    if rest ≠ [] ∧ rest.all Char.isDigit then
      some (-(rest.foldl (fun acc c => acc * 10 + (c.toNat - 48)) 0 : Nat))
    else none
  | _ =>
    if s ≠ [] ∧ s.all Char.isDigit then
      some ((s.foldl (fun acc c => acc * 10 + (c.toNat - 48)) 0 : Nat))
    else none

/-- Model of `random.randint lo hi` given a raw draw `r`: a value in `[lo, hi]`
whenever `lo ≤ hi` (Python raises otherwise; total here, unused case). -/
def randint (lo hi : Int) (r : Nat) : Int :=
  lo + (r : Int) % (hi + 1 - lo)

/-- The characters after the first space, `none` when no space exists
(`call_str.find(' ') == -1`). -/
def afterFirstSpace : List Char → Option (List Char)
  | [] => none
  | c :: rest => if c = ' ' then some rest else afterFirstSpace rest

/-- Function `identify_call` (lines 286-308): classify the leading alphabetic run of
the string (after its leading dash was stripped by the caller). -/
def identify_call (s : List Char) : Option Char :=
  let call := s.takeWhile Char.isAlpha
  if call = "alloc".toList then some 'a'
  else if call = "realloc".toList then some 'r'
  else if call = "free".toList then some 'f'
  else if call = "leak".toList then some 'l'
  else none

/-- Function `identify_num_requests` (lines 344-372): the token after the first
space, parsed as an integer; `ALL_IDS` when there is no further token or
the next token is another directive. -/
def identify_num_requests (s : List Char) : Option Int :=
  match afterFirstSpace s with
  | none => some ALL_IDS
  | some rest =>
    match rest with
    | [] => none  -- `call_str[space + 1]` raises IndexError
    | c :: _ =>
      if c = '-' then some ALL_IDS
      else parseInt (rest.takeWhile (fun ch => ch ≠ ' '))

/-- Function `identify_byte_range` (lines 311-341): the requested byte size or
inclusive range; a missing specification draws both bounds randomly.
Returns the resolved `(lower, upper?)` pair and the remaining draw
stream. -/
def identify_byte_range (s : List Char) (rnds : List Nat) :
    Option ((Int × Option Int) × List Nat) :=
  let pre := s.takeWhile (fun c => c ≠ '(' ∧ c ≠ ' ')
  match s.drop pre.length with
  | [] =>
    some ((randint 1 50 (rnds.getD 0 0), some (randint 200 1200 (rnds.getD 1 0))),
      rnds.drop 2)
  | c :: rest2 =>
    if c = ' ' then
      some ((randint 1 50 (rnds.getD 0 0), some (randint 200 1200 (rnds.getD 1 0))),
        rnds.drop 2)
    else
      -- `c = '('`
      let tok := rest2.takeWhile (fun ch => ch ≠ ',' ∧ ch ≠ ')')
      match rest2.drop tok.length with
      | [] => none  -- `call_str[j]` raises IndexError
      | d :: rest4 =>
        if d = ')' then (parseInt tok).map (fun n => ((n, none), rnds))
        else
          -- `d = ','`; upper bound runs to `find(')')`, or to the last
          -- character exclusive when ')' is missing (find returns -1)
          let upTok := match rest4.findIdx? (fun ch => ch = ')') with
            | some k => rest4.take k
            | none => rest4.dropLast
          match parseInt tok, parseInt upTok with
          | some lo, some hi => some ((lo, some hi), rnds)
          | _, _ => none

/-- The `id_byte_map`: generator's insertion-ordered map id -> recorded size. -/
abbrev IdMap := List (Nat × Int)

/-- One size draw: `randint(lo, hi)` when both bounds are truthy (nonzero /
non-`None`), else the lower bound as-is. -/
def drawSize (bt : Int × Option Int) (rnds : List Nat) : Int × List Nat :=
  match bt with
  | (lo, some hi) =>
    if lo ≠ 0 ∧ hi ≠ 0 then (randint lo hi (rnds.getD 0 0), rnds.drop 1)
    else (lo, rnds)
  | (lo, none) => (lo, rnds)

/-- The request loop of `generate_allocs` (lines 423-430): `n` iterations,
each records `id_byte_map[alloc_ids] = size`, prints the alloc line, and
increments the cursor. -/
def allocLoop (bt : Int × Option Int) :
    Nat → IdMap → Nat → List Nat → List Line × IdMap × Nat × List Nat
  | 0, m, ids, rnds => ([], m, ids, rnds)
  | k + 1, m, ids, rnds =>
    let s := drawSize bt rnds
    let rec2 := allocLoop bt k (ainsert m ids s.1) (ids + 1) s.2
    (Line.a ids (some s.1) :: rec2.1, rec2.2)

/-- Function `generate_allocs` (lines 410-431). -/
def generate_allocs (argString : List Char) (m : IdMap) (alloc_ids : Nat)
    (rnds : List Nat) : Option (List Line × IdMap × Nat × List Nat) :=
  match identify_byte_range (argString.drop 1) rnds with
  | none => none
  | some (bt, rnds2) =>
    match identify_num_requests (argString.drop 1) with
    | none => none
    | some num => some (allocLoop bt num.toNat m alloc_ids rnds2)

/-- The request loop of `generate_frees` (lines 398-406): at most `k`
iterations (the Python `range(free_ids, num_requests)` is sized once at
entry), each frees the id at the cursor and advances it by 2, stopping
early when the cursor's id is absent. -/
def freesLoop : Nat → IdMap → Nat → List Line × IdMap × Nat
  | 0, m, cur => ([], m, cur)
  | k + 1, m, cur =>
    match alookup m cur with
    | some _ =>
      let rec2 := freesLoop k (aerase m cur) (cur + 2)
      (Line.f cur :: rec2.1, rec2.2)
    | none => ([], m, cur)

/-- Function `generate_frees` (lines 375-407). -/
def generate_frees (argString : List Char) (m : IdMap) (free_ids : Nat) :
    Option (List Line × IdMap × Nat) :=
  match identify_num_requests (argString.drop 1) with
  | none => none
  | some num =>
    let n : Int := if num = ALL_IDS then (m.length : Int) else num
    some (freesLoop (n - free_ids).toNat m free_ids)

/-- The gap-skipping loop of `generate_reallocs` (lines 452-453), with
explicit fuel: `while realloc_ids not in id_byte_map: realloc_ids =
(realloc_ids + 1) % len(id_byte_map)`.  `none` means the fuel ran out
(the Python loop has not terminated) or `len` was zero (ZeroDivisionError). -/
def skipAbsent (m : IdMap) : Nat → Nat → Option Nat
  | _, 0 => none
  | cur, k + 1 =>
    if (alookup m cur).isSome then some cur
    else if m.length = 0 then none
    else skipAbsent m ((cur + 1) % m.length) k

/-- The request loop of `generate_reallocs` (lines 449-461): skip to a live
id, print the realloc, advance the cursor by one modulo the map size. -/
def reallocLoop (bt : Int × Option Int) (m : IdMap) (fuel : Nat) :
    Nat → Nat → List Nat → Option (List Line × Nat × List Nat)
  | 0, cur, rnds => some ([], cur, rnds)
  | k + 1, cur, rnds =>
    match skipAbsent m cur fuel with
    | none => none
    | some c =>
      let s := drawSize bt rnds
      match reallocLoop bt m fuel k ((c + 1) % m.length) s.2 with
      | none => none
      | some (out, c2, rnds3) => some (Line.r c (some s.1) :: out, c2, rnds3)

/-- Function `generate_reallocs` (lines 434-462); the map itself is never changed. -/
def generate_reallocs (argString : List Char) (m : IdMap) (realloc_ids : Nat)
    (rnds : List Nat) (fuel : Nat) : Option (List Line × Nat × List Nat) :=
  match identify_byte_range (argString.drop 1) rnds with
  | none => none
  | some (bt, rnds2) =>
    match identify_num_requests (argString.drop 1) with
    | none => none
    | some num =>
      let n : Int := if num = ALL_IDS then (m.length : Int) else num
      reallocLoop bt m fuel n.toNat realloc_ids rnds2

/-- Model of the join `' '.join(arg_array[idx:])`. -/
def joinArgs (args : List (List Char)) : List Char :=
  (args.intersperse [' ']).flatten

/-- Generator state: `id_byte_map` and the three cursors of
`generate_file_heap_use` (lines 472-475), plus the pending draw stream. -/
structure GenState where
  m : IdMap
  alloc_ids : Nat
  free_ids : Nat
  realloc_ids : Nat
  rnds : List Nat
deriving DecidableEq, Repr

/-- Outcome of the directive loop: either a `-leak` directive returned
early (no trailing cleanup), or the loop ran to completion. -/
inductive GenOut where
  | leaked (out : List Line)
  | done (out : List Line) (st : GenState)
deriving DecidableEq, Repr

/-- Prepend the lines a directive printed to the rest of the run. -/
def prependOut (o : List Line) : GenOut → GenOut
  | GenOut.leaked out => GenOut.leaked (o ++ out)
  | GenOut.done out st => GenOut.done (o ++ out) st

/-- The directive loop of `generate_file_heap_use` (lines 476-489): for
each argument index, join the remaining arguments into one string; when it
starts with `-`, dispatch on `identify_call`.  `fuel` bounds the realloc
gap-skipping loop. -/
def processArgs (fuel : Nat) : List (List Char) → GenState → Option GenOut
  | [], _st => some (GenOut.done [] _st)
  | args@(_ :: rest), st =>
    match joinArgs args with
    | [] => none  -- `arg_string[0]` raises IndexError on an empty join
    | c :: _ =>
      if c = '-' then
        match identify_call ((joinArgs args).drop 1) with
        | some call =>
          if call = 'f' then
            match generate_frees (joinArgs args) st.m st.free_ids with
            | none => none
            | some (out, m2, fr2) =>
              (processArgs fuel rest { st with m := m2, free_ids := fr2 }).map
                (prependOut out)
          else if call = 'a' then
            match generate_allocs (joinArgs args) st.m st.alloc_ids st.rnds with
            | none => none
            | some (out, m2, al2, rnds2) =>
              (processArgs fuel rest
                { st with m := m2, alloc_ids := al2, rnds := rnds2 }).map
                (prependOut out)
          else if call = 'r' then
            match generate_reallocs (joinArgs args) st.m st.realloc_ids st.rnds fuel with
            | none => none
            | some (out, re2, rnds2) =>
              (processArgs fuel rest
                { st with realloc_ids := re2, rnds := rnds2 }).map
                (prependOut out)
          else
            -- `call = 'l'`: return immediately, skipping the cleanup pass
            some (GenOut.leaked [])
        | none => processArgs fuel rest st
      else processArgs fuel rest st

/-- The trailing cleanup frees (lines 492-496): one `f <id>` per key still
in `id_byte_map`, in insertion order. -/
def cleanupFrees (m : IdMap) : List Line :=
  m.map (fun p => Line.f p.1)

/-- Function `generate_file_heap_use` (lines 465-496) as the list of emitted lines:
the directive loop's output followed, unless `-leak` ended the run, by the
cleanup frees. -/
def generate_file_heap_use (fuel : Nat) (args : List (List Char))
    (rnds : List Nat) : Option (List Line) :=
  match processArgs fuel args ⟨[], 0, 0, 0, rnds⟩ with
  | none => none
  | some (GenOut.leaked out) => some out
  | some (GenOut.done out st) => some (out ++ cleanupFrees st.m)

/-- Text of one emitted line, as Python's f-strings interpolate it. -/
def renderLine : Line → String
  | Line.a i (some s) => "a " ++ toString i ++ " " ++ toString s
  | Line.a i none => "a " ++ toString i ++ " None"
  | Line.r i (some s) => "r " ++ toString i ++ " " ++ toString s
  | Line.r i none => "r " ++ toString i ++ " None"
  | Line.f i => "f " ++ toString i

/-- The exact bytes `generate_file_heap_use` prints: every line of the
directive loop ends in a newline; the cleanup pass terminates every line
but its last (`print(..., end='')` on the final item, lines 493-494). -/
def renderGeneratedScript (fuel : Nat) (args : List (List Char))
    (rnds : List Nat) : Option String :=
  match processArgs fuel args ⟨[], 0, 0, 0, rnds⟩ with
  | none => none
  | some (GenOut.leaked out) =>
    some (String.join (out.map (fun l => renderLine l ++ "\n")))
  | some (GenOut.done out st) =>
    some (String.join (out.map (fun l => renderLine l ++ "\n")) ++
      String.intercalate "\n" ((cleanupFrees st.m).map renderLine))

/-! ### Dictionary lemmas -/

theorem alookup_mem {κ α : Type} [DecidableEq κ] {m : List (κ × α)} {k : κ} {v : α}
    (h : alookup m k = some v) : (k, v) ∈ m := by
  induction m with
  | nil => simp [alookup] at h
  | cons q rest ih =>
    obtain ⟨a, b⟩ := q
    rw [alookup] at h
    split at h
    · next heq => cases h; exact List.mem_cons.2 (Or.inl (by rw [heq]))
    · exact List.mem_cons.2 (Or.inr (ih h))

theorem mem_aerase {κ α : Type} [DecidableEq κ] {m : List (κ × α)} {k : κ} {p : κ × α}
    (h : p ∈ aerase m k) : p ∈ m := by
  induction m with
  | nil => simp [aerase] at h
  | cons q rest ih =>
    obtain ⟨a, b⟩ := q
    rw [aerase] at h
    split at h
    · exact List.mem_cons.2 (Or.inr h)
    · rcases List.mem_cons.1 h with h1 | h1
      · exact List.mem_cons.2 (Or.inl h1)
      · exact List.mem_cons.2 (Or.inr (ih h1))

theorem mem_aupdate {κ α : Type} [DecidableEq κ] {m : List (κ × α)} {k : κ} {v : α}
    {p : κ × α} (h : p ∈ aupdate m k v) : p ∈ m ∨ p = (k, v) := by
  induction m with
  | nil => simp [aupdate] at h
  | cons q rest ih =>
    obtain ⟨a, b⟩ := q
    rw [aupdate] at h
    split at h
    · next heq =>
      rcases List.mem_cons.1 h with h1 | h1
      · right; rw [h1, heq]
      · left; exact List.mem_cons.2 (Or.inr h1)
    · rcases List.mem_cons.1 h with h1 | h1
      · left; exact List.mem_cons.2 (Or.inl h1)
      · rcases ih h1 with h2 | h2
        · left; exact List.mem_cons.2 (Or.inr h2)
        · right; exact h2

theorem mem_ainsert {κ α : Type} [DecidableEq κ] {m : List (κ × α)} {k : κ} {v : α}
    {p : κ × α} (h : p ∈ ainsert m k v) : p ∈ m ∨ p = (k, v) := by
  unfold ainsert at h
  split at h
  · exact mem_aupdate h
  · rcases List.mem_append.1 h with h1 | h1
    · exact Or.inl h1
    · exact Or.inr (List.mem_singleton.1 h1)

theorem alookup_append_of_none {κ α : Type} [DecidableEq κ] {m : List (κ × α)} {k : κ}
    (v : α) (h : alookup m k = none) : alookup (m ++ [(k, v)]) k = some v := by
  induction m with
  | nil => simp [alookup]
  | cons q rest ih =>
    obtain ⟨a, b⟩ := q
    rw [alookup] at h
    split at h
    · cases h
    · next hne => rw [List.cons_append, alookup, if_neg hne]; exact ih h

/-- A nonempty list's `getD` at an index reduced modulo its length is a
member (the model of `random.choice`). -/
theorem getD_mod_mem {l : List Nat} (h : l ≠ []) (i : Nat) :
    l.getD (i % l.length) 0 ∈ l := by
  have hlen : 0 < l.length := List.length_pos.2 h
  have hlt : i % l.length < l.length := Nat.mod_lt _ hlen
  rw [List.getD_eq_getElem?_getD, List.getElem?_eq_getElem hlt]
  exact List.getElem_mem hlt

/-- A nonempty list's last element via `getD` is a member (the model of
`id_list[len(id_list) - 1]`). -/
theorem getD_last_mem {l : List Nat} (h : l ≠ []) :
    l.getD (l.length - 1) 0 ∈ l := by
  have hlen : 0 < l.length := List.length_pos.2 h
  have hlt : l.length - 1 < l.length := by omega
  rw [List.getD_eq_getElem?_getD, List.getElem?_eq_getElem hlt]
  exact List.getElem_mem hlt

/-! ### Translator invariants -/

/-- The id mentioned by a script line. -/
def lineId : Line → Nat
  | Line.a i _ => i
  | Line.r i _ => i
  | Line.f i => i

/-- The ids of the `a` lines of an output, in emission order. -/
def aIds (out : List Line) : List Nat :=
  out.filterMap (fun l => match l with | Line.a i _ => some i | _ => none)

/-- Translator state invariant: every id list in `memory_dict` is nonempty
and contains only already-assigned ids. -/
def MapInv (m : AddrMap) (ids : Nat) : Prop :=
  ∀ p ∈ m, p.2 ≠ [] ∧ ∀ x ∈ p.2, x < ids

theorem print_heap_call_inv (c : DecodedCall) (rv : Nat) (m : AddrMap) (ids : Nat)
    (h : MapInv m ids) :
    ids ≤ (print_heap_call c rv m ids).2.1 ∧
    MapInv (print_heap_call c rv m ids).1 (print_heap_call c rv m ids).2.1 ∧
    ∀ l ∈ (print_heap_call c rv m ids).2.2,
      lineId l < (print_heap_call c rv m ids).2.1 := by
  obtain ⟨call, addr, sz⟩ := c
  cases call with
  | free =>
    cases hl : alookup m addr with
    | none =>
      simp only [print_heap_call, hl]
      exact ⟨le_refl _, h, by simp⟩
    | some idList =>
      simp only [print_heap_call, hl]
      have hprop := h _ (alookup_mem hl)
      have hdel : idList.getD (idList.length - 1) 0 < ids :=
        hprop.2 _ (getD_last_mem hprop.1)
      by_cases hp : idList.dropLast = []
      · rw [if_pos hp]
        refine ⟨le_refl _, fun p hp2 => h p (mem_aerase hp2), ?_⟩
        intro l hlmem
        rw [List.mem_singleton.1 hlmem]
        exact hdel
      · rw [if_neg hp]
        refine ⟨le_refl _, ?_, ?_⟩
        · intro p hp2
          rcases mem_aupdate hp2 with h2 | h2
          · exact h p h2
          · rw [h2]
            exact ⟨hp, fun x hx => hprop.2 x (List.dropLast_subset _ hx)⟩
        · intro l hlmem
          rw [List.mem_singleton.1 hlmem]
          exact hdel
  | realloc =>
    cases hl : alookup m addr with
    | none =>
      simp only [print_heap_call, hl]
      refine ⟨Nat.le_succ _, ?_, ?_⟩
      · intro p hp2
        rcases List.mem_append.1 hp2 with h2 | h2
        · exact ⟨(h p h2).1, fun x hx => Nat.lt_succ_of_lt ((h p h2).2 x hx)⟩
        · rw [List.mem_singleton.1 h2]
          exact ⟨by simp, by simp⟩
      · intro l hlmem
        rcases List.mem_cons.1 hlmem with h2 | h2
        · rw [h2]; exact Nat.lt_succ_self ids
        · rw [List.mem_singleton.1 h2]
          simp [lineId, Nat.mod_one]
    | some lst =>
      simp only [print_heap_call, hl]
      have hprop := h _ (alookup_mem hl)
      refine ⟨le_refl _, h, ?_⟩
      intro l hlmem
      rw [List.mem_singleton.1 hlmem]
      exact hprop.2 _ (getD_mod_mem hprop.1 rv)
  | alloc =>
    simp only [print_heap_call]
    refine ⟨Nat.le_succ _, ?_, ?_⟩
    · intro p hp2
      rcases mem_ainsert hp2 with h2 | h2
      · exact ⟨(h p h2).1, fun x hx => Nat.lt_succ_of_lt ((h p h2).2 x hx)⟩
      · rw [h2]
        refine ⟨by simp, fun x hx => ?_⟩
        rcases List.mem_append.1 hx with h3 | h3
        · cases hl : alookup m addr with
          | none => rw [hl] at h3; simp at h3
          | some w =>
            rw [hl] at h3
            exact Nat.lt_succ_of_lt ((h _ (alookup_mem hl)).2 x (by simpa using h3))
        · rw [List.mem_singleton.1 h3]
          exact Nat.lt_succ_self ids
    · intro l hlmem
      rw [List.mem_singleton.1 hlmem]
      exact Nat.lt_succ_self ids

theorem translateSteps_inv (pick : Nat → Nat) (cs : List DecodedCall) :
    ∀ (m : AddrMap) (ids i : Nat), MapInv m ids →
      ids ≤ (translateSteps pick cs m ids i).2.1 ∧
      MapInv (translateSteps pick cs m ids i).1 (translateSteps pick cs m ids i).2.1 ∧
      ∀ l ∈ (translateSteps pick cs m ids i).2.2,
        lineId l < (translateSteps pick cs m ids i).2.1 := by
  induction cs with
  | nil => intro m ids i h; exact ⟨le_refl _, h, by simp [translateSteps]⟩
  | cons c rest ih =>
    intro m ids i h
    obtain ⟨hle1, hinv1, hout1⟩ := print_heap_call_inv c (pick i) m ids h
    obtain ⟨hle2, hinv2, hout2⟩ :=
      ih (print_heap_call c (pick i) m ids).1 (print_heap_call c (pick i) m ids).2.1
        (i + 1) hinv1
    refine ⟨le_trans hle1 hle2, hinv2, ?_⟩
    intro l hlmem
    rw [translateSteps] at hlmem
    rcases List.mem_append.1 hlmem with h2 | h2
    · exact lt_of_lt_of_le (hout1 l h2) hle2
    · exact hout2 l h2

theorem print_heap_call_aIds (c : DecodedCall) (rv : Nat) (m : AddrMap) (ids : Nat) :
    ids ≤ (print_heap_call c rv m ids).2.1 ∧
    aIds (print_heap_call c rv m ids).2.2
      = List.range' ids ((print_heap_call c rv m ids).2.1 - ids) := by
  obtain ⟨call, addr, sz⟩ := c
  cases call with
  | free =>
    cases hl : alookup m addr with
    | none => simp [print_heap_call, hl, aIds]
    | some idList =>
      simp only [print_heap_call, hl]
      by_cases hp : idList.dropLast = [] <;> simp [hp, aIds]
  | realloc =>
    cases hl : alookup m addr with
    | none => simp [print_heap_call, hl, aIds, List.range']
    | some lst => simp [print_heap_call, hl, aIds]
  | alloc => simp [print_heap_call, aIds, List.range']

theorem translateSteps_aIds (pick : Nat → Nat) (cs : List DecodedCall) :
    ∀ (m : AddrMap) (ids i : Nat),
      ids ≤ (translateSteps pick cs m ids i).2.1 ∧
      aIds (translateSteps pick cs m ids i).2.2
        = List.range' ids ((translateSteps pick cs m ids i).2.1 - ids) := by
  induction cs with
  | nil => intro m ids i; simp [translateSteps, aIds]
  | cons c rest ih =>
    intro m ids i
    obtain ⟨hle1, ha1⟩ := print_heap_call_aIds c (pick i) m ids
    obtain ⟨hle2, ha2⟩ :=
      ih (print_heap_call c (pick i) m ids).1 (print_heap_call c (pick i) m ids).2.1 (i + 1)
    rw [translateSteps]
    refine ⟨le_trans hle1 hle2, ?_⟩
    rw [aIds, List.filterMap_append, ← aIds, ← aIds, ha1, ha2]
    set mid := (print_heap_call c (pick i) m ids).2.1 with hmid
    set fin := (translateSteps pick rest (print_heap_call c (pick i) m ids).1 mid (i + 1)).2.1
      with hfin
    have h1 : mid = ids + (mid - ids) := by omega
    calc List.range' ids (mid - ids) ++ List.range' mid (fin - mid)
        = List.range' ids (mid - ids) ++ List.range' (ids + (mid - ids)) (fin - mid) := by
          rw [← h1]
      _ = List.range' ids ((fin - mid) + (mid - ids)) := List.range'_append_1 _ _ _
      _ = List.range' ids (fin - ids) := by congr 1; omega

theorem aIds_flushFrees (m : AddrMap) : aIds (flushFrees m) = [] := by
  unfold flushFrees
  induction ((m.map Prod.snd).flatten) with
  | nil => rfl
  | cons x rest ih =>
    simp only [aIds, List.map_cons, List.filterMap_cons] at ih ⊢
    exact ih

/-! ### Claims about the live-trace translator -/

/-- C1: the claim says a free of an address holding live ids `i` then `j`
emits `f j`, removes only `j`, and a second free emits `f i`.
`parsing.py`'s `print_heap_call` behaves exactly so, but
`trace_parsing.py`'s translator pops the entire address entry on the first
free, so on the same decoded stream (two allocs at one address, then two
frees) the second free emits nothing and `f 0` never appears in-stream:
the old draft contradicts the pinned behavior. -/
theorem C1_trace_parsing_free_drops_sibling_ids :
    tpParseFileHeapUse (fun _ => 0)
        [⟨HeapCall.alloc, 16, some 5⟩, ⟨HeapCall.alloc, 16, some 7⟩,
         ⟨HeapCall.free, 16, none⟩, ⟨HeapCall.free, 16, none⟩]
      = [Line.a 0 (some 5), Line.a 1 (some 7), Line.f 1] ∧
    parse_file_heap_use (fun _ => 0)
        [⟨HeapCall.alloc, 16, some 5⟩, ⟨HeapCall.alloc, 16, some 7⟩,
         ⟨HeapCall.free, 16, none⟩, ⟨HeapCall.free, 16, none⟩]
      = [Line.a 0 (some 5), Line.a 1 (some 7), Line.f 1, Line.f 0] :=
  ⟨rfl, rfl⟩

/-- C3: in any `parsing.py` translate run, a realloc decoded for an address
absent from `memory_dict` emits exactly `a <newid> 8` immediately followed
by `r <newid> <size>`, where `<newid>` is the current counter value — an id
never mentioned in the output so far — and the address is registered live
with exactly that id. -/
theorem C3_fresh_address_realloc_synthesizes_alloc (pick : Nat → Nat)
    (cs : List DecodedCall) (m : AddrMap) (ids : Nat) (out : List Line)
    (addr rv : Nat) (sz : Option Int)
    (hrun : translateSteps pick cs [] 0 0 = (m, ids, out))
    (habs : alookup m addr = none) :
    (print_heap_call ⟨HeapCall.realloc, addr, sz⟩ rv m ids).2.2
      = [Line.a ids (some 8), Line.r ids sz] ∧
    alookup (print_heap_call ⟨HeapCall.realloc, addr, sz⟩ rv m ids).1 addr
      = some [ids] ∧
    (print_heap_call ⟨HeapCall.realloc, addr, sz⟩ rv m ids).2.1 = ids + 1 ∧
    ∀ l ∈ out, lineId l ≠ ids := by
  have hinv := translateSteps_inv pick cs [] 0 0 (by intro p hp; simp at hp)
  rw [hrun] at hinv
  refine ⟨?_, ?_, ?_, ?_⟩
  · simp [print_heap_call, habs, Nat.mod_one]
  · simp only [print_heap_call, habs]
    exact alookup_append_of_none _ habs
  · simp [print_heap_call, habs]
  · intro l hl
    exact Nat.ne_of_lt (hinv.2.2 l hl)

theorem C3_fresh_address_realloc_synthesizes_alloc_witness :
    (print_heap_call ⟨HeapCall.realloc, 5, none⟩ 0 [] 0).2.2
      = [Line.a 0 (some 8), Line.r 0 none] ∧
    alookup (print_heap_call ⟨HeapCall.realloc, 5, none⟩ 0 [] 0).1 5 = some [0] ∧
    (print_heap_call ⟨HeapCall.realloc, 5, none⟩ 0 [] 0).2.1 = 0 + 1 ∧
    ∀ l ∈ ([] : List Line), lineId l ≠ 0 :=
  C3_fresh_address_realloc_synthesizes_alloc (fun _ => 0) [] [] 0 [] 5 0 none rfl rfl

/-- C8: a decoded free whose address is not tracked in `memory_dict` is
skipped: no line is emitted and the state is returned exactly unchanged. -/
theorem C8_stale_free_skipped (m : AddrMap) (ids addr rv : Nat) (sz : Option Int)
    (h : alookup m addr = none) :
    print_heap_call ⟨HeapCall.free, addr, sz⟩ rv m ids = (m, ids, []) := by
  simp [print_heap_call, h]

theorem C8_stale_free_skipped_witness :
    print_heap_call ⟨HeapCall.free, 16, none⟩ 0 [(25, [0])] 1 = ([(25, [0])], 1, []) :=
  C8_stale_free_skipped [(25, [0])] 1 16 0 none rfl

/-- C9: over any translate run (any decoded stream, any random choices),
the ids of the emitted `a` lines — synthesized ones included — are exactly
`0, 1, 2, ...` in emission order: the list of alloc-line ids equals
`List.range` of the final counter, hence starts at 0, increments by one per
alloc line, and never repeats. -/
theorem C9_alloc_ids_dense_monotonic (pick : Nat → Nat) (cs : List DecodedCall) :
    aIds (parse_file_heap_use pick cs)
      = List.range (translateSteps pick cs [] 0 0).2.1 := by
  unfold parse_file_heap_use
  obtain ⟨hle, ha⟩ := translateSteps_aIds pick cs [] 0 0
  rw [aIds, List.filterMap_append, ← aIds, ← aIds, ha, aIds_flushFrees,
    List.append_nil, Nat.sub_zero, List.range_eq_range']

/-! ### Claims about the script validator -/

/-- Any error of `validateFrom` points at the first offending line: the
strict prefix before it validates fine, and the reported number is the
1-based position (relative to the starting index) of a line whose step
raises exactly that error. -/
theorem validateFrom_error (lines : List (String × String)) :
    ∀ (d : ReqMap) (i n : Nat) (e : VErr),
      validateFrom d i lines = Except.error (n, e) →
      i ≤ n ∧ n < i + lines.length ∧
      ∃ d2 rt mid, validateFrom d i (lines.take (n - i)) = Except.ok d2 ∧
        lines[(n - i)]? = some (rt, mid) ∧
        validateStep d2 rt mid = Except.error e := by
  induction lines with
  | nil => intro d i n e h; rw [validateFrom] at h; cases h
  | cons p rest ih =>
    obtain ⟨rt0, mid0⟩ := p
    intro d i n e h
    rw [validateFrom] at h
    cases hstep : validateStep d rt0 mid0 with
    | error e0 =>
      rw [hstep] at h
      injection h with h1
      injection h1 with h2 h3
      subst h2; subst h3
      refine ⟨le_refl _, by simp, d, rt0, mid0, ?_, ?_, hstep⟩
      · rw [Nat.sub_self]; rfl
      · rw [Nat.sub_self]; simp
    | ok d2 =>
      rw [hstep] at h
      obtain ⟨h1, h2, d3, rt, mid, hok, hget, herr⟩ := ih d2 (i + 1) n e h
      have hni : n - i = (n - (i + 1)) + 1 := by omega
      refine ⟨by omega, by simp only [List.length_cons]; omega, d3, rt, mid, ?_, ?_, herr⟩
      · rw [hni, List.take_succ_cons, validateFrom, hstep]
        exact hok
      · rw [hni, List.getElem?_cons_succ]
        exact hget

/-- C2: the validator raises on the first line whose id is not live and
whose op is realloc or free (so `r 0 100` / `f 0` raises at line 1), raises
on an alloc of a live id whose last recorded op is alloc (so `a 0 10` /
`a 0 20` raises at line 2), and every raised error carries the 1-based
number of the offending line — the prefix before that line validates, and
the step on that very line is what raises. -/
theorem C2_validator_raises_first_bad_line :
    validate_script [("r", "0"), ("f", "0")] = Except.error (1, VErr.reallocNotLive) ∧
    validate_script [("a", "0"), ("a", "0")] = Except.error (2, VErr.doubleAlloc) ∧
    (∀ (lines : List (String × String)) (n : Nat) (e : VErr),
      validate_script lines = Except.error (n, e) →
      1 ≤ n ∧ n ≤ lines.length ∧
      ∃ d rt mid, validateFrom [] 1 (lines.take (n - 1)) = Except.ok d ∧
        lines[(n - 1)]? = some (rt, mid) ∧
        validateStep d rt mid = Except.error e) ∧
    (∀ (d : ReqMap) (rt mid : String),
      (∃ e, validateStep d rt mid = Except.error e) ↔
        ((alookup d mid = none ∧ (rt = "r" ∨ rt = "f")) ∨
         (alookup d mid = some "a" ∧ rt = "a"))) := by
  refine ⟨rfl, rfl, ?_, ?_⟩
  · intro lines n e h
    obtain ⟨h1, h2, d, rt, mid, hok, hget, herr⟩ :=
      validateFrom_error lines [] 1 n e h
    exact ⟨h1, by omega, d, rt, mid, hok, hget, herr⟩
  · intro d rt mid
    cases hl : alookup d mid with
    | none =>
      by_cases hr : rt = "r" <;> by_cases hf : rt = "f" <;>
        simp [validateStep, hl, hr, hf]
    | some last =>
      by_cases ha : rt = "a" ∧ last = "a"
      · simp [validateStep, hl, ha, if_pos ha]
      · by_cases hf : rt = "f"
        · simp [validateStep, hl, if_neg ha, hf]
        · simp [validateStep, hl, if_neg ha, hf]
          intro hlast hrt
          exact ha ⟨hrt, hlast⟩

theorem C2_validator_raises_first_bad_line_witness :
    1 ≤ 1 ∧ 1 ≤ ([("r", "0"), ("f", "0")] : List (String × String)).length ∧
    ∃ d rt mid,
      validateFrom [] 1 (([("r", "0"), ("f", "0")] : List (String × String)).take (1 - 1))
        = Except.ok d ∧
      ([("r", "0"), ("f", "0")] : List (String × String))[(1 - 1)]? = some (rt, mid) ∧
      validateStep d rt mid = Except.error VErr.reallocNotLive :=
  C2_validator_raises_first_bad_line.2.2.1 [("r", "0"), ("f", "0")] 1
    VErr.reallocNotLive rfl

/-! ### Claims about the pattern generator -/

/-- C5: `-alloc(100) 6` then a bare `-free` frees exactly ids 0, 2, 4
(the cursor advances by 2 per successful free) and leaves exactly ids
1, 3, 5 in `id_byte_map` when the free directive finishes (it is the last
directive, so the final loop state is the state right after it). -/
theorem C5_default_free_stride_two :
    processArgs 10 ["-alloc(100)".toList, "6".toList, "-free".toList]
        ⟨[], 0, 0, 0, []⟩
      = some (GenOut.done
          [Line.a 0 (some 100), Line.a 1 (some 100), Line.a 2 (some 100),
           Line.a 3 (some 100), Line.a 4 (some 100), Line.a 5 (some 100),
           Line.f 0, Line.f 2, Line.f 4]
          ⟨[(1, 100), (3, 100), (5, 100)], 6, 6, 0, []⟩) := by
  rfl

/-- C10: an `-alloc` directive with no explicit count resolves its count to
the `ALL_IDS` sentinel (-2), whose `range` is empty, so `generate_allocs`
emits nothing and returns the map and cursor unchanged. -/
theorem C10_alloc_all_ids_sentinel_noop (s : List Char) (m : IdMap) (cur : Nat)
    (rnds rnds2 : List Nat) (bt : Int × Option Int)
    (hbr : identify_byte_range (s.drop 1) rnds = some (bt, rnds2))
    (hnum : identify_num_requests (s.drop 1) = some ALL_IDS) :
    generate_allocs s m cur rnds = some ([], m, cur, rnds2) := by
  unfold generate_allocs
  rw [hbr, hnum]
  rfl

theorem C10_alloc_all_ids_sentinel_noop_witness :
    generate_allocs ("-alloc(100)".toList) [(7, 3)] 9 [1, 2, 3]
      = some ([], [(7, 3)], 9, [1, 2, 3]) :=
  C10_alloc_all_ids_sentinel_noop ("-alloc(100)".toList) [(7, 3)] 9 [1, 2, 3]
    [1, 2, 3] (100, none) rfl rfl

/-- Whether the joined argument suffix is a `-leak` directive. -/
def isLeakDirective (args : List (List Char)) : Bool :=
  match joinArgs args with
  | [] => false
  | c :: rest => c = '-' && identify_call rest = some 'l'

/-- Whether any argument suffix of the directive loop is `-leak`. -/
def hasLeakDirective : List (List Char) → Bool
  | [] => false
  | args@(_ :: rest) => isLeakDirective args || hasLeakDirective rest

theorem identify_call_cases (s : List Char) (c : Char)
    (h : identify_call s = some c) :
    c = 'a' ∨ c = 'r' ∨ c = 'f' ∨ c = 'l' := by
  simp only [identify_call] at h
  split at h
  · injection h with h1; exact Or.inl h1.symm
  · split at h
    · injection h with h1; exact Or.inr (Or.inl h1.symm)
    · split at h
      · injection h with h1; exact Or.inr (Or.inr (Or.inl h1.symm))
      · split at h
        · injection h with h1; exact Or.inr (Or.inr (Or.inr h1.symm))
        · cases h

/-- Without a `-leak` directive the argument loop can only finish in the
`done` state (the cleanup pass will run). -/
theorem processArgs_noLeak_done (fuel : Nat) :
    ∀ (args : List (List Char)) (st : GenState) (res : GenOut),
      hasLeakDirective args = false →
      processArgs fuel args st = some res →
      ∃ out st2, res = GenOut.done out st2 := by
  intro args
  induction args with
  | nil =>
    intro st res _ h
    rw [processArgs] at h
    injection h with h1
    exact ⟨[], st, h1.symm⟩
  | cons a rest ih =>
    intro st res hleak h
    rw [hasLeakDirective, Bool.or_eq_false_iff] at hleak
    obtain ⟨hleak1, hleak2⟩ := hleak
    rw [processArgs] at h
    cases heq : joinArgs (a :: rest) with
    | nil => rw [heq] at h; cases h
    | cons c tl =>
      rw [heq] at h
      simp only [List.drop_succ_cons, List.drop_zero] at h
      by_cases hc : c = '-'
      case neg => rw [if_neg hc] at h; exact ih st res hleak2 h
      rw [if_pos hc] at h
      cases hcall : identify_call tl with
      | none => rw [hcall] at h; exact ih st res hleak2 h
      | some call =>
        rcases identify_call_cases tl call hcall with h4 | h4 | h4 | h4
        · -- alloc directive
          subst h4
          simp only [hcall] at h
          cases hgen : generate_allocs (c :: tl) st.m st.alloc_ids st.rnds with
          | none => simp [hgen] at h
          | some quad =>
            obtain ⟨out, m2, al2, rnds2⟩ := quad
            simp [hgen, Option.map_eq_some'] at h
            obtain ⟨res2, hres2, hmap⟩ := h
            obtain ⟨o2, st2, hdone⟩ := ih _ res2 hleak2 hres2
            exact ⟨out ++ o2, st2, by rw [← hmap, hdone]; rfl⟩
        · -- realloc directive
          subst h4
          simp only [hcall] at h
          cases hgen : generate_reallocs (c :: tl) st.m st.realloc_ids st.rnds fuel with
          | none => simp [hgen] at h
          | some trip =>
            obtain ⟨out, re2, rnds2⟩ := trip
            simp [hgen, Option.map_eq_some'] at h
            obtain ⟨res2, hres2, hmap⟩ := h
            obtain ⟨o2, st2, hdone⟩ := ih _ res2 hleak2 hres2
            exact ⟨out ++ o2, st2, by rw [← hmap, hdone]; rfl⟩
        · -- free directive
          subst h4
          simp only [hcall] at h
          cases hgen : generate_frees (c :: tl) st.m st.free_ids with
          | none => simp [hgen] at h
          | some trip =>
            obtain ⟨out, m2, fr2⟩ := trip
            simp [hgen, Option.map_eq_some'] at h
            obtain ⟨res2, hres2, hmap⟩ := h
            obtain ⟨o2, st2, hdone⟩ := ih _ res2 hleak2 hres2
            exact ⟨out ++ o2, st2, by rw [← hmap, hdone]; rfl⟩
        · -- leak directive: impossible, `hasLeakDirective` said no
          subst h4
          rw [isLeakDirective, heq] at hleak1
          rw [hc] at hleak1
          simp [hcall] at hleak1

/-- C6: when the directive list contains no `-leak` directive, every run of
the generator that completes ends with exactly one free line per id still
in `id_byte_map`, in map insertion order, and nothing after them;
concretely, `-alloc(100) 3` renders to exactly three alloc lines then
`f 0`, `f 1`, `f 2`, with no terminator after the last line. -/
theorem C6_no_leak_trailing_cleanup :
    (∀ (fuel : Nat) (args : List (List Char)) (rnds : List Nat) (res : GenOut),
        hasLeakDirective args = false →
        processArgs fuel args ⟨[], 0, 0, 0, rnds⟩ = some res →
        ∃ out st, res = GenOut.done out st ∧
          generate_file_heap_use fuel args rnds
            = some (out ++ cleanupFrees st.m)) ∧
    renderGeneratedScript 10 ["-alloc(100)".toList, "3".toList] []
      = some "a 0 100\na 1 100\na 2 100\nf 0\nf 1\nf 2" := by
  constructor
  · intro fuel args rnds res hleak h
    obtain ⟨out, st, hdone⟩ := processArgs_noLeak_done fuel args _ res hleak h
    subst hdone
    refine ⟨out, st, rfl, ?_⟩
    unfold generate_file_heap_use
    rw [h]
  · rfl

theorem C6_no_leak_trailing_cleanup_witness :
    ∃ out st,
      (GenOut.done [Line.a 0 (some 100), Line.a 1 (some 100), Line.a 2 (some 100)]
          (⟨[(0, 100), (1, 100), (2, 100)], 3, 0, 0, []⟩ : GenState))
        = GenOut.done out st ∧
      generate_file_heap_use 10 ["-alloc(100)".toList, "3".toList] []
        = some (out ++ cleanupFrees st.m) :=
  C6_no_leak_trailing_cleanup.1 10 ["-alloc(100)".toList, "3".toList] [] _ rfl rfl

/-- The gap-skipping loop never finds a live id from the reachable state
`id_byte_map = {1: 100}` with cursor 0: the cursor only takes values
below `len(id_byte_map) = 1`, i.e. stays 0 forever, and 0 is not a key. -/
theorem skipAbsent_gap_stuck : ∀ fuel, skipAbsent [(1, 100)] 0 fuel = none := by
  intro fuel
  induction fuel with
  | zero => rfl
  | succ k ih => exact ih

/-- From the same reachable state, `generate_reallocs '-realloc(50) 1'`
never returns, whatever fuel the skip loop is granted. -/
theorem generate_reallocs_stuck : ∀ fuel,
    generate_reallocs ("-realloc(50) 1".toList) [(1, 100)] 0 [] fuel = none := by
  intro fuel
  have h1 : generate_reallocs ("-realloc(50) 1".toList) [(1, 100)] 0 [] fuel
      = match skipAbsent [(1, 100)] 0 fuel with
        | none => none
        | some c =>
          match reallocLoop (50, none) [(1, 100)] fuel 0 ((c + 1) % 1) [] with
          | none => none
          | some (out, c2, rnds3) =>
            some (Line.r c (some 50) :: out, c2, rnds3) := rfl
  rw [h1, skipAbsent_gap_stuck fuel]

/-- The whole generator run on the failing directive list returns no
result at any fuel: the realloc directive's skip loop diverges. -/
theorem generator_full_run_stuck : ∀ fuel,
    processArgs fuel
        ["-alloc(100)".toList, "2".toList, "-free".toList, "1".toList,
         "-realloc(50)".toList, "1".toList] ⟨[], 0, 0, 0, []⟩ = none := by
  intro fuel
  have h1 : processArgs fuel
      ["-alloc(100)".toList, "2".toList, "-free".toList, "1".toList,
       "-realloc(50)".toList, "1".toList] ⟨[], 0, 0, 0, []⟩
    = Option.map (prependOut [Line.a 0 (some 100), Line.a 1 (some 100)])
        (Option.map (prependOut [Line.f 0])
          (match generate_reallocs ("-realloc(50) 1".toList) [(1, 100)] 0 [] fuel with
           | none => none
           | some (out, re2, rnds2) =>
             Option.map (prependOut out)
               (processArgs fuel ["1".toList] ⟨[(1, 100)], 2, 2, re2, rnds2⟩))) := rfl
  rw [h1, generate_reallocs_stuck fuel]
  rfl

/-- C4: the claim says the generator terminates on every finite directive
list, a realloc directive completing after exactly its count of emitted
lines.  It does not: the reachable directive list
`-alloc(100) 2 -free 1 -realloc(50) 1` leaves `id_byte_map = {1: 100}`
with the realloc cursor at 0, and the id-skip loop
`realloc_ids = (realloc_ids + 1) % len(id_byte_map)` then cycles through
`{0}` forever without finding the live id 1: no amount of fuel makes the
skip loop or the whole run produce a result. -/
theorem C4_realloc_gap_skip_diverges :
    processArgs 10 ["-alloc(100)".toList, "2".toList, "-free".toList, "1".toList]
        ⟨[], 0, 0, 0, []⟩
      = some (GenOut.done [Line.a 0 (some 100), Line.a 1 (some 100), Line.f 0]
          ⟨[(1, 100)], 2, 2, 0, []⟩) ∧
    (∀ fuel, skipAbsent [(1, 100)] 0 fuel = none) ∧
    (∀ fuel, generate_file_heap_use fuel
        ["-alloc(100)".toList, "2".toList, "-free".toList, "1".toList,
         "-realloc(50)".toList, "1".toList] [] = none) := by
  refine ⟨rfl, skipAbsent_gap_stuck, ?_⟩
  intro fuel
  unfold generate_file_heap_use
  rw [generator_full_run_stuck fuel]

end HeapWorkshop
